import Mathlib

/-!
# Verification of the Antithesis C++ SDK header (`antithesis_sdk.h`)

A shallow embedding of the single-header SDK into Lean 4, together with
theorems settling the specification claims about it.

Modelling conventions:

* `std::map<std::string, ValueType>` is modelled as a strictly key-sorted
  association list `List (String × Value)`; its `initializer_list`
  constructor (which inserts the pairs left to right, `insert` keeping an
  already-present key) is `Details.ofList`.
* `std::less<std::string>` compares byte-wise lexicographically; it is
  modelled by the structurally recursive `strLt` below.
* Each `printf` call in the SDK emits exactly one output line; an emitted
  line is modelled as a `Record` (one constructor per `printf` format
  string in the source), and `renderRecord` produces the exact line text.
* C++ `double`s are only ever stored in a `Details` and stream-printed;
  no arithmetic is performed on them. A double is therefore modelled by
  `CppDouble`, carrying its `operator<<` rendering.
-/

namespace AntithesisSDK

/-- A C++ `double` as used by the SDK: it is only stored and printed, never
computed with, so we model it by its `ostream` rendering. -/
structure CppDouble where
  render : String

/-- `typedef std::variant<std::string, double, Details> ValueType;` where a
`Details` stored inside a value is an already-constructed `std::map`,
i.e. a strictly key-sorted association list. -/
inductive Value where
  | str : String → Value
  | num : CppDouble → Value
  | det : List (String × Value) → Value

/-- The contents of a `Details` map: the entry list of the underlying
`std::map<std::string, ValueType>`, in its iteration (ascending key)
order. -/
abbrev Details := List (String × Value)

/-- `std::less<Char>`: byte/code-point comparison. -/
def charLt (a b : Char) : Bool := a.toNat < b.toNat

/-- Lexicographic comparison of character lists, as `std::less<std::string>`
performs on the underlying bytes: the first differing position decides,
otherwise the shorter string is smaller. -/
def strLtAux : List Char → List Char → Bool
  | _, [] => false
  | [], _ :: _ => true
  | c :: cs, d :: ds => charLt c d || (c = d && strLtAux cs ds)

/-- `std::less<std::string>`, the key order of `std::map`. -/
def strLt (a b : String) : Bool := strLtAux a.data b.data

/-- One `std::map::insert` into the sorted entry list: keys equivalent under
`std::less` (i.e. equal) are NOT overwritten — `insert` keeps the element
already present. -/
def mapInsert : List (String × Value) → String → Value → List (String × Value)
  | [], k, v => [(k, v)]
  | (k', v') :: m, k, v =>
    if strLt k k' then (k, v) :: (k', v') :: m
    else if k = k' then (k', v') :: m
    else (k', v') :: mapInsert m k v

/-- The `Details` constructor from an `std::initializer_list`: the pairs are
inserted left to right (`std::map`'s range construction), so for a
duplicated key the first occurrence is kept. -/
def Details.ofList (args : List (String × Value)) : Details :=
  args.foldl (fun m kv => mapInsert m kv.1 kv.2) []

/-- `std::map::find`/`operator[]` lookup on the entry list. -/
def mapLookup : List (String × Value) → String → Option Value
  | [], _ => none
  | (k', v') :: m, k => if k = k' then some v' else mapLookup m k

/-- How `std::quoted` transcribes one character: a delimiter (`"`) or
escape (`\`) character is prefixed with the escape character; every other
character — control characters included — is copied through unchanged. -/
def escapeChar (c : Char) : List Char :=
  if c = '"' ∨ c = '\\' then ['\\', c] else [c]

/-- `std::quoted(s)` with the default delimiter `"` and escape `\`:
writes the delimiter, each character of `s` transcribed by `escapeChar`,
then the delimiter again. -/
def quoted (s : String) : String :=
  "\"" ++ String.mk (s.data.flatMap escapeChar) ++ "\""

mutual
/-- `operator<<(std::ostream&, const ValueType&)`: strings via `std::quoted`,
doubles via the stream's double rendering, nested `Details` via the
`Details` printer (inlined here: `"{ "`, the entries separated by `", "`,
then `" }"`). -/
def serializeValue : Value → String
  | .str s => quoted s
  | .num d => d.render
  | .det m => "\x7b " ++ String.intercalate ", " (serializeEntries m) ++ " \x7d"

/-- The per-entry rendering of the loop in
`operator<<(std::ostream&, const Details&)`: `quoted(key) << ": " << value`
for each entry, in entry-list (i.e. map iteration) order. -/
def serializeEntries : List (String × Value) → List String
  | [] => []
  | (k, v) :: rest => (quoted k ++ ": " ++ serializeValue v) :: serializeEntries rest
end

/-- `operator<<(std::ostream&, const Details&)`: `"{ "`, then the entries in
map iteration order separated by `", "`, then `" }"`. -/
def serializeDetails (m : Details) : String :=
  "\x7b " ++ String.intercalate ", " (serializeEntries m) ++ " \x7d"

/-- `struct AssertionState`: the three one-shot bit flags plus the unused
padding bits (`rest : 5`, always zero). -/
structure AssertionState where
  not_reached : Bool
  false_not_seen : Bool
  true_not_seen : Bool
  rest : Nat

/-- `AssertionState()` default constructor: all three flags `true`,
`rest` zero. -/
def AssertionState.init : AssertionState :=
  { not_reached := true, false_not_seen := true, true_not_seen := true, rest := 0 }

/-- One emitted output line, one constructor per `printf` format string in
the source; `renderRecord` gives the exact text of the line. -/
inductive Record where
  | catalog (id file : String) (line : Int) (function_name message : String)
  | reached (id : String)
  | firstFalse (id message : String)
  | firstTrue (id message : String)
  | details (text : String)
deriving DecidableEq

/-- The exact line text each `printf` in the source produces (without the
trailing newline, which terminates the line). -/
def renderRecord : Record → String
  | .catalog id file line function_name message =>
      "There is an assertion with ID `" ++ id ++ "` at " ++ file ++ ":" ++ toString line
        ++ " in `" ++ function_name ++ "` with message: `" ++ message ++ "`"
  | .reached id => "The assertion with ID `" ++ id ++ "` was reached"
  | .firstFalse id message => "The assertion with ID `" ++ id ++ "` saw its first false: " ++ message
  | .firstTrue id message => "The assertion with ID `" ++ id ++ "` saw its first true: " ++ message
  | .details text => "Details: " ++ text

def Record.isCatalog : Record → Bool
  | .catalog _ _ _ _ _ => true
  | _ => false

def Record.isReached : Record → Bool
  | .reached _ => true
  | _ => false

def Record.isFirstFalse : Record → Bool
  | .firstFalse _ _ => true
  | _ => false

def Record.isFirstTrue : Record → Bool
  | .firstTrue _ _ => true
  | _ => false

/-- `struct Assertion`: the per-identity state plus the identity fields. -/
structure Assertion where
  state : AssertionState
  message : String
  function_name : String
  file_name : String
  line : Int
  id : String

/-- The field initializers of the `Assertion` constructor:
`state()` default-constructed, identity fields stored, and
`id = message + " in " + function_name`. -/
def Assertion.make (message function_name file_name : String) (line : Int) : Assertion :=
  { state := AssertionState.init, message, function_name, file_name, line
    id := message ++ " in " ++ function_name }

/-- `Assertion::add_to_catalog`: the single catalog `printf`. -/
def Assertion.add_to_catalog (a : Assertion) : Record :=
  Record.catalog a.id a.file_name a.line a.function_name a.message

/-- The `Assertion` constructor: initializes the fields (`Assertion.make`)
and calls `add_to_catalog`, emitting the catalog record. -/
def Assertion.create (message function_name file_name : String) (line : Int) :
    Assertion × List Record :=
  let a := Assertion.make message function_name file_name line
  (a, [a.add_to_catalog])

/-- `Assertion::print_details`: serializes the details with the stream
printer and emits one `Details:` line. -/
def Assertion.print_details (d : Details) : Record :=
  Record.details (serializeDetails d)

/-- `Assertion::check_assertion_internal`: the three one-shot checks, in
source order, each emitting its record line plus a details line and
clearing its flag. The state is threaded sequentially as the C++ mutates
the member in place. -/
def Assertion.check_assertion_internal (a : Assertion) (cond : Bool) (details : Details) :
    Assertion × List Record :=
  let s₁ :=
    if a.state.not_reached then
      ({ a with state := { a.state with not_reached := false } },
        [Record.reached a.id, Assertion.print_details details])
    else (a, ([] : List Record))
  let s₂ :=
    if !cond && s₁.1.state.false_not_seen then
      ({ s₁.1 with state := { s₁.1.state with false_not_seen := false } },
        [Record.firstFalse s₁.1.id s₁.1.message, Assertion.print_details details])
    else (s₁.1, ([] : List Record))
  let s₃ :=
    if cond && s₂.1.state.true_not_seen then
      ({ s₂.1 with state := { s₂.1.state with true_not_seen := false } },
        [Record.firstTrue s₂.1.id s₂.1.message, Assertion.print_details details])
    else (s₂.1, ([] : List Record))
  (s₃.1, s₁.2 ++ s₂.2 ++ s₃.2)

/-- `Assertion::check_assertion`: the fast-path guard — the internal check
runs only if some flag is still set, otherwise nothing happens. -/
def Assertion.check_assertion (a : Assertion) (cond : Bool) (details : Details) :
    Assertion × List Record :=
  if a.state.not_reached || a.state.false_not_seen || a.state.true_not_seen then
    a.check_assertion_internal cond details
  else (a, [])

/-- A sequence of `check_assertion` invocations on one `Assertion`,
collecting the emitted records in order. -/
def Assertion.runChecks (a : Assertion) : List (Bool × Details) → Assertion × List Record
  | [] => (a, [])
  | (cond, d) :: rest =>
    let s₁ := a.check_assertion cond d
    let s₂ := s₁.1.runChecks rest
    (s₂.1, s₁.2 ++ s₂.2)

/-- The whole per-identity process lifetime: the `CatalogEntry` template
static for the identity is initialized exactly once (constructing the
`Assertion`, which emits the catalog record), after which every
invocation of the site calls `check_assertion`. The result is the full
emitted record trace of the identity. -/
def runSite (message function_name file_name : String) (line : Int)
    (seq : List (Bool × Details)) : List Record :=
  let c := Assertion.create message function_name file_name line
  c.2 ++ (c.1.runChecks seq).2

/-- The representation invariant of a `std::map` entry list: strictly
ascending keys under `std::less`. -/
def SortedKeys (m : List (String × Value)) : Prop :=
  List.Pairwise (fun p q => strLt p.1 q.1 = true) m

/-- The catalog line as the specification's §6 format reads it, with
double-quote delimited ID, function and message — for comparison with the
line the code actually prints (`renderRecord`). -/
def specCatalogLine (id file : String) (line : Int) (function_name message : String) : String :=
  "There is an assertion with ID \"" ++ id ++ "\" at " ++ file ++ ":" ++ toString line
    ++ " in \"" ++ function_name ++ "\" with message: \"" ++ message ++ "\""

/-- The reached line as the specification's §6 format reads it, with a
double-quote delimited ID — for comparison with `renderRecord`. -/
def specReachedLine (id : String) : String :=
  "The assertion with ID \"" ++ id ++ "\" was reached"

/-- An assertion whose three one-shot flags have all been cleared
(steady state after full coverage); used as a concrete test input. -/
def exhaustedAssertion : Assertion :=
  { state := { not_reached := false, false_not_seen := false, true_not_seen := false, rest := 0 }
    message := "x>0", function_name := "f", file_name := "file.cpp", line := 10, id := "x>0 in f" }

/-- The spec's scenario site: message `"x>0"`, freshly constructed. -/
def scenarioSite : Assertion := (Assertion.create "x>0" "f" "file.cpp" 10).1

/-- Scenario call 1: `check(true, {"x": 5.0})` (the stream renders `5.0`
as `5`). -/
def scenarioStep1 : Assertion × List Record :=
  scenarioSite.check_assertion true (Details.ofList [("x", .num ⟨"5"⟩)])

/-- Scenario call 2: `check(false, {"x": -1.0})`. -/
def scenarioStep2 : Assertion × List Record :=
  scenarioStep1.1.check_assertion false (Details.ofList [("x", .num ⟨"-1"⟩)])

/-- Scenario call 3: `check(false, {})`. -/
def scenarioStep3 : Assertion × List Record :=
  scenarioStep2.1.check_assertion false (Details.ofList [])

/-- A concrete invocation sequence used as a test input. -/
def demoSeq : List (Bool × Details) :=
  [(true, Details.ofList []), (false, Details.ofList [("x", .num ⟨"5"⟩)])]

/-! ## Order properties of the key comparison `strLt` -/

theorem char_eq_of_toNat_eq {c d : Char} (h : c.toNat = d.toNat) : c = d :=
  Char.eq_of_val_eq (UInt32.ext h)

theorem strLtAux_irrefl : ∀ l : List Char, strLtAux l l = false
  | [] => rfl
  | c :: cs => by
    simp only [strLtAux, charLt, Bool.or_eq_false_iff, Bool.and_eq_false_iff]
    exact ⟨by simp, Or.inr (strLtAux_irrefl cs)⟩

theorem strLt_irrefl (a : String) : strLt a a = false :=
  strLtAux_irrefl a.data

theorem strLtAux_asymm : ∀ {l m : List Char}, strLtAux l m = true → strLtAux m l = false
  | l, [], h => by cases l <;> simp [strLtAux] at h
  | [], _ :: _, _ => rfl
  | c :: cs, d :: ds, h => by
    simp only [strLtAux, charLt, Bool.or_eq_true, Bool.and_eq_true, decide_eq_true_eq] at h
    simp only [strLtAux, charLt, Bool.or_eq_false_iff, Bool.and_eq_false_iff]
    rcases h with h | ⟨hcd, h⟩
    · refine ⟨by simp; omega, Or.inl ?_⟩
      simp only [decide_eq_false_iff_not]
      intro hdc
      subst hdc
      omega
    · subst hcd
      exact ⟨by simp, Or.inr (strLtAux_asymm h)⟩

theorem strLt_asymm {a b : String} (h : strLt a b = true) : strLt b a = false :=
  strLtAux_asymm h

theorem strLtAux_trans :
    ∀ {l m n : List Char}, strLtAux l m = true → strLtAux m n = true → strLtAux l n = true
  | _, m, [], _, h₂ => by cases m <;> simp [strLtAux] at h₂
  | l, [], _ :: _, h₁, _ => by cases l <;> simp [strLtAux] at h₁
  | [], _ :: _, _ :: _, _, _ => rfl
  | c :: cs, d :: ds, e :: es, h₁, h₂ => by
    simp only [strLtAux, charLt, Bool.or_eq_true, Bool.and_eq_true, decide_eq_true_eq] at h₁ h₂ ⊢
    rcases h₁ with h₁ | ⟨hcd, h₁⟩ <;> rcases h₂ with h₂ | ⟨hde, h₂⟩
    · exact Or.inl (by omega)
    · subst hde; exact Or.inl h₁
    · subst hcd; exact Or.inl h₂
    · subst hcd; subst hde; exact Or.inr ⟨rfl, strLtAux_trans h₁ h₂⟩

theorem strLt_trans {a b c : String} (h₁ : strLt a b = true) (h₂ : strLt b c = true) :
    strLt a c = true :=
  strLtAux_trans h₁ h₂

theorem strLtAux_connex :
    ∀ {l m : List Char}, strLtAux l m = false → strLtAux m l = false → l = m
  | [], [], _, _ => rfl
  | [], _ :: _, h₁, _ => by simp [strLtAux] at h₁
  | _ :: _, [], _, h₂ => by simp [strLtAux] at h₂
  | c :: cs, d :: ds, h₁, h₂ => by
    simp only [strLtAux, charLt, Bool.or_eq_false_iff, Bool.and_eq_false_iff,
      decide_eq_false_iff_not] at h₁ h₂
    have hcd : c = d := char_eq_of_toNat_eq (by omega)
    subst hcd
    rcases h₁.2 with h | h
    · exact absurd rfl h
    · rcases h₂.2 with h' | h'
      · exact absurd rfl h'
      · rw [strLtAux_connex h h']

theorem strLt_connex {a b : String} (h₁ : strLt a b = false) (h₂ : strLt b a = false) : a = b :=
  String.ext (strLtAux_connex h₁ h₂)

/-! ## The `std::map` invariant: strictly key-sorted entry lists -/

theorem mem_mapInsert {m : List (String × Value)} {k : String} {v : Value} :
    ∀ {x}, x ∈ mapInsert m k v → x = (k, v) ∨ x ∈ m := by
  induction m with
  | nil => intro x hx; simp [mapInsert] at hx; exact Or.inl hx
  | cons p m ih =>
    intro x hx
    simp only [mapInsert] at hx
    split at hx
    · rcases List.mem_cons.mp hx with h | h
      · exact Or.inl h
      · exact Or.inr h
    · split at hx
      · exact Or.inr hx
      · rcases List.mem_cons.mp hx with h | h
        · exact Or.inr (by rw [h]; exact List.mem_cons_self p m)
        · rcases ih h with h' | h'
          · exact Or.inl h'
          · exact Or.inr (List.mem_cons_of_mem p h')

theorem sortedKeys_mapInsert {m : List (String × Value)} {k : String} {v : Value}
    (h : SortedKeys m) : SortedKeys (mapInsert m k v) := by
  induction m with
  | nil => exact List.pairwise_singleton _ _
  | cons p m ih =>
    rw [SortedKeys, List.pairwise_cons] at h
    obtain ⟨hp, hm⟩ := h
    rw [SortedKeys]
    simp only [mapInsert]
    split
    · rename_i hlt
      refine List.pairwise_cons.mpr ⟨?_, List.pairwise_cons.mpr ⟨hp, hm⟩⟩
      intro x hx
      rcases List.mem_cons.mp hx with hx | hx
      · rw [hx]; exact hlt
      · exact strLt_trans hlt (hp x hx)
    · split
      · exact List.pairwise_cons.mpr ⟨hp, hm⟩
      · rename_i hnlt hne
        have hkp : strLt p.1 k = true := by
          cases hpk : strLt p.1 k with
          | true => rfl
          | false =>
            exact absurd (strLt_connex (Bool.of_not_eq_true hnlt) hpk) hne
        refine List.pairwise_cons.mpr ⟨?_, ih hm⟩
        intro x hx
        rcases mem_mapInsert hx with hx | hx
        · rw [hx]; exact hkp
        · exact hp x hx

theorem sortedKeys_ofList (l : List (String × Value)) : SortedKeys (Details.ofList l) := by
  have grow : ∀ (l' : List (String × Value)) (m : List (String × Value)), SortedKeys m →
      SortedKeys (l'.foldl (fun m kv => mapInsert m kv.1 kv.2) m) := by
    intro l'
    induction l' with
    | nil => intro m hm; exact hm
    | cons kv l' ih => intro m hm; exact ih _ (sortedKeys_mapInsert hm)
  exact grow l [] List.Pairwise.nil

theorem nodup_keys_of_sortedKeys {m : List (String × Value)} (h : SortedKeys m) :
    (m.map Prod.fst).Nodup := by
  rw [List.Nodup, List.pairwise_map]
  refine h.imp ?_
  intro p q hpq heq
  rw [heq] at hpq
  rw [strLt_irrefl] at hpq
  exact Bool.false_ne_true hpq

theorem mapLookup_eq_none_iff {m : List (String × Value)} {k : String} :
    mapLookup m k = none ↔ k ∉ m.map Prod.fst := by
  induction m with
  | nil => simp [mapLookup]
  | cons p m ih =>
    simp only [mapLookup, List.map_cons, List.mem_cons]
    by_cases hk : k = p.1
    · simp [hk]
    · simp [hk, ih]

theorem mapLookup_none_of_lt_head {p : String × Value} {m : List (String × Value)} {k : String}
    (h : SortedKeys (p :: m)) (hlt : strLt k p.1 = true) : mapLookup (p :: m) k = none := by
  rw [SortedKeys, List.pairwise_cons] at h
  rw [mapLookup_eq_none_iff]
  simp only [List.map_cons, List.mem_cons]
  rintro (hk | hk)
  · rw [hk] at hlt
    rw [strLt_irrefl] at hlt
    exact Bool.false_ne_true hlt
  · obtain ⟨x, hx, hxk⟩ := List.mem_map.mp hk
    have := h.1 x hx
    rw [hxk] at this
    rw [strLt_asymm hlt] at this
    exact Bool.false_ne_true this

theorem mapLookup_mapInsert {m : List (String × Value)} {k' : String} {v' : Value}
    (k : String) (h : SortedKeys m) :
    mapLookup (mapInsert m k' v') k =
      (mapLookup m k).or (if k = k' then some v' else none) := by
  induction m with
  | nil => simp [mapInsert, mapLookup, Option.or]
  | cons p m ih =>
    have hm : SortedKeys m := (List.pairwise_cons.mp h).2
    obtain ⟨k₀, v₀⟩ := p
    by_cases h₁ : strLt k' k₀ = true
    · simp only [mapInsert, if_pos h₁]
      by_cases hk : k = k'
      · have hnone : mapLookup ((k₀, v₀) :: m) k = none :=
          mapLookup_none_of_lt_head h (by rw [hk]; exact h₁)
        rw [hnone]
        simp [mapLookup, hk, Option.or]
      · simp [mapLookup, hk, Option.or_none]
    · by_cases h₂ : k' = k₀
      · simp only [mapInsert, if_neg h₁, if_pos h₂]
        by_cases hk : k = k₀
        · simp [mapLookup, hk, Option.or]
        · have hk' : ¬ k = k' := by rw [h₂]; exact hk
          simp [mapLookup, hk, hk', Option.or_none]
      · simp only [mapInsert, if_neg h₁, if_neg h₂]
        by_cases hk : k = k₀
        · simp [mapLookup, hk, Option.or]
        · simp only [mapLookup, if_neg hk]
          exact ih hm

theorem mapLookup_foldl {l : List (String × Value)} {k : String} :
    ∀ m : List (String × Value), SortedKeys m →
      mapLookup (l.foldl (fun m kv => mapInsert m kv.1 kv.2) m) k =
        (mapLookup m k).or (mapLookup l k) := by
  induction l with
  | nil => intro m _; simp [mapLookup, Option.or_none]
  | cons kv l ih =>
    intro m hm
    simp only [List.foldl_cons]
    rw [ih _ (sortedKeys_mapInsert hm), mapLookup_mapInsert k hm]
    cases hmk : mapLookup m k with
    | some w => simp [Option.or]
    | none =>
      by_cases hk : k = kv.1
      · simp [Option.or, mapLookup, hk]
      · simp [Option.or, mapLookup, hk]

/-- Looking a key up in the constructed `Details` map finds the FIRST
occurrence of that key in the supplied construction list (`mapLookup`
applied to the raw list is exactly the first-occurrence scan). -/
theorem mapLookup_ofList (l : List (String × Value)) (k : String) :
    mapLookup (Details.ofList l) k = mapLookup l k := by
  rw [Details.ofList, mapLookup_foldl [] List.Pairwise.nil]
  simp [mapLookup, Option.or]

theorem mapInsert_perm {m : List (String × Value)} {k : String} {v : Value}
    (h : mapLookup m k = none) : (mapInsert m k v).Perm ((k, v) :: m) := by
  induction m with
  | nil => exact List.Perm.refl _
  | cons p m ih =>
    obtain ⟨k₀, v₀⟩ := p
    simp only [mapLookup] at h
    by_cases hk : k = k₀
    · rw [if_pos hk] at h
      exact absurd h (by simp)
    · rw [if_neg hk] at h
      by_cases h₁ : strLt k k₀ = true
      · simp only [mapInsert, if_pos h₁]
        exact List.Perm.refl _
      · simp only [mapInsert, if_neg h₁, if_neg hk]
        exact (List.Perm.cons (k₀, v₀) (ih h)).trans (List.Perm.swap (k, v) (k₀, v₀) m)

theorem ofList_foldl_perm {l : List (String × Value)} :
    ∀ m : List (String × Value), SortedKeys m →
      ((m.map Prod.fst ++ l.map Prod.fst).Nodup) →
      (l.foldl (fun m kv => mapInsert m kv.1 kv.2) m).Perm (m ++ l) := by
  induction l with
  | nil => intro m _ _; simp
  | cons kv l ih =>
    intro m hm hnd
    simp only [List.map_cons] at hnd
    have hkm : kv.1 ∉ m.map Prod.fst := by
      rcases List.nodup_append.mp hnd with ⟨_, _, hdisj⟩
      intro hmem
      exact hdisj hmem (List.mem_cons_self _ _)
    have hnone : mapLookup m kv.1 = none := mapLookup_eq_none_iff.mpr hkm
    have hperm : (mapInsert m kv.1 kv.2).Perm ((kv.1, kv.2) :: m) := mapInsert_perm hnone
    have hkeys : ((mapInsert m kv.1 kv.2).map Prod.fst).Perm (kv.1 :: m.map Prod.fst) := by
      have := hperm.map Prod.fst
      simpa using this
    have hnd' : ((mapInsert m kv.1 kv.2).map Prod.fst ++ l.map Prod.fst).Nodup := by
      have P : ((mapInsert m kv.1 kv.2).map Prod.fst ++ l.map Prod.fst).Perm
          (m.map Prod.fst ++ kv.1 :: l.map Prod.fst) :=
        (hkeys.append_right (l.map Prod.fst)).trans List.perm_middle.symm
      exact P.symm.nodup hnd
    simp only [List.foldl_cons]
    have step := ih (mapInsert m kv.1 kv.2) (sortedKeys_mapInsert hm) hnd'
    refine step.trans ?_
    have : (mapInsert m kv.1 kv.2 ++ l).Perm (((kv.1, kv.2) :: m) ++ l) :=
      hperm.append_right l
    refine this.trans ?_
    have : ((kv.1, kv.2) :: (m ++ l)).Perm (m ++ (kv.1, kv.2) :: l) :=
      List.perm_middle.symm
    simpa using this

/-- Construction order is forgotten: for distinct keys, the constructed map
is a permutation of the supplied pair list. -/
theorem ofList_perm {l : List (String × Value)} (h : (l.map Prod.fst).Nodup) :
    (Details.ofList l).Perm l := by
  have := ofList_foldl_perm (l := l) [] List.Pairwise.nil (by simpa using h)
  simpa using this

theorem ofList_eq_of_perm {l₁ l₂ : List (String × Value)}
    (h : (l₁.map Prod.fst).Nodup) (hp : l₁.Perm l₂) :
    Details.ofList l₁ = Details.ofList l₂ := by
  haveI : IsAntisymm (String × Value) (fun p q => strLt p.1 q.1 = true) := by
    constructor
    intro a b hab hba
    rw [strLt_asymm hab] at hba
    exact absurd hba Bool.false_ne_true
  have h₂ : (l₂.map Prod.fst).Nodup := (hp.map Prod.fst).nodup h
  have chain : (Details.ofList l₁).Perm (Details.ofList l₂) :=
    ((ofList_perm h).trans hp).trans (ofList_perm h₂).symm
  exact List.eq_of_perm_of_sorted chain (sortedKeys_ofList l₁) (sortedKeys_ofList l₂)

/-! ## Characterization of one `check_assertion` invocation -/

/-- A single invocation in closed form: the resulting state is determined
flag-wise from the original state and the condition, and the emitted
records are the three independent one-shot blocks, each gated only on the
ORIGINAL state and the condition. -/
theorem check_spec (a : Assertion) (cond : Bool) (d : Details) :
    a.check_assertion cond d =
      ({ a with state :=
          { not_reached := false
            false_not_seen := a.state.false_not_seen && cond
            true_not_seen := a.state.true_not_seen && !cond
            rest := a.state.rest } },
        (if a.state.not_reached then
          [Record.reached a.id, Record.details (serializeDetails d)] else [])
        ++ (if !cond && a.state.false_not_seen then
          [Record.firstFalse a.id a.message, Record.details (serializeDetails d)] else [])
        ++ (if cond && a.state.true_not_seen then
          [Record.firstTrue a.id a.message, Record.details (serializeDetails d)] else [])) := by
  obtain ⟨⟨nr, fns, tns, rest⟩, msg, fn, file, line, id⟩ := a
  cases nr <;> cases fns <;> cases tns <;> cases cond <;> rfl

theorem check_countP_catalog (a : Assertion) (cond : Bool) (d : Details) :
    (a.check_assertion cond d).2.countP Record.isCatalog = 0 := by
  obtain ⟨⟨nr, fns, tns, rest⟩, msg, fn, file, line, id⟩ := a
  cases nr <;> cases fns <;> cases tns <;> cases cond <;> rfl

theorem check_countP_reached (a : Assertion) (cond : Bool) (d : Details) :
    (a.check_assertion cond d).2.countP Record.isReached =
      if a.state.not_reached then 1 else 0 := by
  obtain ⟨⟨nr, fns, tns, rest⟩, msg, fn, file, line, id⟩ := a
  cases nr <;> cases fns <;> cases tns <;> cases cond <;> rfl

theorem check_countP_firstFalse (a : Assertion) (cond : Bool) (d : Details) :
    (a.check_assertion cond d).2.countP Record.isFirstFalse =
      if !cond && a.state.false_not_seen then 1 else 0 := by
  obtain ⟨⟨nr, fns, tns, rest⟩, msg, fn, file, line, id⟩ := a
  cases nr <;> cases fns <;> cases tns <;> cases cond <;> rfl

theorem check_countP_firstTrue (a : Assertion) (cond : Bool) (d : Details) :
    (a.check_assertion cond d).2.countP Record.isFirstTrue =
      if cond && a.state.true_not_seen then 1 else 0 := by
  obtain ⟨⟨nr, fns, tns, rest⟩, msg, fn, file, line, id⟩ := a
  cases nr <;> cases fns <;> cases tns <;> cases cond <;> rfl

/-! ## Lemmas about invocation sequences -/

theorem runChecks_countP_catalog (seq : List (Bool × Details)) :
    ∀ a : Assertion, (a.runChecks seq).2.countP Record.isCatalog = 0 := by
  induction seq with
  | nil => intro a; rfl
  | cons step seq ih =>
    intro a
    obtain ⟨cond, d⟩ := step
    simp only [Assertion.runChecks, List.countP_append]
    rw [check_countP_catalog, ih]

theorem runChecks_reached_shot (seq : List (Bool × Details)) :
    ∀ a : Assertion, a.state.not_reached = false →
      (a.runChecks seq).1.state.not_reached = false ∧
      (a.runChecks seq).2.countP Record.isReached = 0 := by
  induction seq with
  | nil => intro a h; exact ⟨h, rfl⟩
  | cons step seq ih =>
    intro a h
    obtain ⟨cond, d⟩ := step
    simp only [Assertion.runChecks, List.countP_append]
    have hstate : (a.check_assertion cond d).1.state.not_reached = false := by
      rw [check_spec]
    have hcount : (a.check_assertion cond d).2.countP Record.isReached = 0 := by
      rw [check_countP_reached, h]
      rfl
    obtain ⟨h₁, h₂⟩ := ih (a.check_assertion cond d).1 hstate
    exact ⟨h₁, by rw [hcount, h₂]⟩

theorem runChecks_firstFalse_shot (seq : List (Bool × Details)) :
    ∀ a : Assertion, a.state.false_not_seen = false →
      (a.runChecks seq).1.state.false_not_seen = false ∧
      (a.runChecks seq).2.countP Record.isFirstFalse = 0 := by
  induction seq with
  | nil => intro a h; exact ⟨h, rfl⟩
  | cons step seq ih =>
    intro a h
    obtain ⟨cond, d⟩ := step
    simp only [Assertion.runChecks, List.countP_append]
    have hstate : (a.check_assertion cond d).1.state.false_not_seen = false := by
      rw [check_spec]
      simp [h]
    have hcount : (a.check_assertion cond d).2.countP Record.isFirstFalse = 0 := by
      rw [check_countP_firstFalse, h]
      simp
    obtain ⟨h₁, h₂⟩ := ih (a.check_assertion cond d).1 hstate
    exact ⟨h₁, by rw [hcount, h₂]⟩

theorem runChecks_firstTrue_shot (seq : List (Bool × Details)) :
    ∀ a : Assertion, a.state.true_not_seen = false →
      (a.runChecks seq).1.state.true_not_seen = false ∧
      (a.runChecks seq).2.countP Record.isFirstTrue = 0 := by
  induction seq with
  | nil => intro a h; exact ⟨h, rfl⟩
  | cons step seq ih =>
    intro a h
    obtain ⟨cond, d⟩ := step
    simp only [Assertion.runChecks, List.countP_append]
    have hstate : (a.check_assertion cond d).1.state.true_not_seen = false := by
      rw [check_spec]
      simp [h]
    have hcount : (a.check_assertion cond d).2.countP Record.isFirstTrue = 0 := by
      rw [check_countP_firstTrue, h]
      simp
    obtain ⟨h₁, h₂⟩ := ih (a.check_assertion cond d).1 hstate
    exact ⟨h₁, by rw [hcount, h₂]⟩

/-! ## Properties of `std::quoted` escaping -/

theorem escapeChar_ne_nil (c : Char) : escapeChar c ≠ [] := by
  unfold escapeChar
  split <;> simp

theorem escapeChar_flatMap_inj :
    ∀ {l₁ l₂ : List Char}, l₁.flatMap escapeChar = l₂.flatMap escapeChar → l₁ = l₂
  | [], [], _ => rfl
  | [], d :: ds, h => by
    rw [List.flatMap_nil, List.flatMap_cons] at h
    cases he : escapeChar d with
    | nil => exact absurd he (escapeChar_ne_nil d)
    | cons x xs => rw [he] at h; exact absurd h.symm (by simp)
  | c :: cs, [], h => by
    rw [List.flatMap_nil, List.flatMap_cons] at h
    cases he : escapeChar c with
    | nil => exact absurd he (escapeChar_ne_nil c)
    | cons x xs => rw [he] at h; exact absurd h (by simp)
  | c :: cs, d :: ds, h => by
    rw [List.flatMap_cons, List.flatMap_cons] at h
    by_cases hc : c = '"' ∨ c = '\\' <;> by_cases hd : d = '"' ∨ d = '\\'
    · rw [escapeChar, if_pos hc, escapeChar, if_pos hd] at h
      simp only [List.cons_append, List.nil_append, List.cons.injEq] at h
      rw [h.2.1, escapeChar_flatMap_inj h.2.2]
    · rw [escapeChar, if_pos hc, escapeChar, if_neg hd] at h
      simp only [List.cons_append, List.nil_append, List.cons.injEq] at h
      exact absurd (Or.inr h.1.symm) hd
    · rw [escapeChar, if_neg hc, escapeChar, if_pos hd] at h
      simp only [List.cons_append, List.nil_append, List.cons.injEq] at h
      exact absurd (Or.inr h.1) hc
    · rw [escapeChar, if_neg hc, escapeChar, if_neg hd] at h
      simp only [List.cons_append, List.nil_append, List.cons.injEq] at h
      rw [h.1, escapeChar_flatMap_inj h.2]

theorem quoted_inj {s t : String} (h : quoted s = quoted t) : s = t := by
  have hd : (quoted s).data = (quoted t).data := by rw [h]
  simp only [quoted, String.data_append] at hd
  have hd' : s.data.flatMap escapeChar ++ ['"'] = t.data.flatMap escapeChar ++ ['"'] := by
    have : ('"' :: s.data.flatMap escapeChar) ++ ['"'] =
        ('"' :: t.data.flatMap escapeChar) ++ ['"'] := hd
    simpa using this
  exact String.ext (escapeChar_flatMap_inj (List.append_cancel_right hd'))

/-! ## The claims -/

/-- C1: every invocation of `check_assertion` applies the three one-shot
checks independently, each gated only on the original state and the
condition; and on the spec's scenario the three successive calls emit
reached + first-true, then first-false only, then nothing. -/
theorem C1_checks_independent (a : Assertion) (cond : Bool) (d : Details) :
    a.check_assertion cond d =
      ({ a with state :=
          { not_reached := false
            false_not_seen := a.state.false_not_seen && cond
            true_not_seen := a.state.true_not_seen && !cond
            rest := a.state.rest } },
        (if a.state.not_reached then
          [Record.reached a.id, Record.details (serializeDetails d)] else [])
        ++ (if !cond && a.state.false_not_seen then
          [Record.firstFalse a.id a.message, Record.details (serializeDetails d)] else [])
        ++ (if cond && a.state.true_not_seen then
          [Record.firstTrue a.id a.message, Record.details (serializeDetails d)] else []))
    ∧ scenarioStep1.2 =
        [Record.reached "x>0 in f", Record.details "\x7b \"x\": 5 \x7d",
         Record.firstTrue "x>0 in f" "x>0", Record.details "\x7b \"x\": 5 \x7d"]
    ∧ scenarioStep2.2 =
        [Record.firstFalse "x>0 in f" "x>0", Record.details "\x7b \"x\": -1 \x7d"]
    ∧ scenarioStep3.2 = [] :=
  ⟨check_spec a cond d, by decide, by decide, by decide⟩

/-- C2: the three flags start `true`, and once a flag is `false` it stays
`false` for any further invocation sequence, which emits no further record
of that flag's category. -/
theorem C2_flags_one_shot (a : Assertion) (seq : List (Bool × Details)) :
    (AssertionState.init.not_reached = true ∧ AssertionState.init.false_not_seen = true ∧
      AssertionState.init.true_not_seen = true)
    ∧ (a.state.not_reached = false →
        (a.runChecks seq).1.state.not_reached = false ∧
        (a.runChecks seq).2.countP Record.isReached = 0)
    ∧ (a.state.false_not_seen = false →
        (a.runChecks seq).1.state.false_not_seen = false ∧
        (a.runChecks seq).2.countP Record.isFirstFalse = 0)
    ∧ (a.state.true_not_seen = false →
        (a.runChecks seq).1.state.true_not_seen = false ∧
        (a.runChecks seq).2.countP Record.isFirstTrue = 0) :=
  ⟨⟨rfl, rfl, rfl⟩, runChecks_reached_shot seq a, runChecks_firstFalse_shot seq a,
    runChecks_firstTrue_shot seq a⟩

/-- Witness for C2: an assertion with all flags cleared, run on a concrete
sequence, keeps them cleared and emits no category records. -/
theorem C2_flags_one_shot_witness :
    ((exhaustedAssertion.runChecks demoSeq).1.state.not_reached = false ∧
      (exhaustedAssertion.runChecks demoSeq).2.countP Record.isReached = 0) ∧
    ((exhaustedAssertion.runChecks demoSeq).1.state.false_not_seen = false ∧
      (exhaustedAssertion.runChecks demoSeq).2.countP Record.isFirstFalse = 0) ∧
    ((exhaustedAssertion.runChecks demoSeq).1.state.true_not_seen = false ∧
      (exhaustedAssertion.runChecks demoSeq).2.countP Record.isFirstTrue = 0) :=
  ⟨(C2_flags_one_shot exhaustedAssertion demoSeq).2.1 rfl,
    (C2_flags_one_shot exhaustedAssertion demoSeq).2.2.1 rfl,
    (C2_flags_one_shot exhaustedAssertion demoSeq).2.2.2 rfl⟩

/-- C3: the constructor emits exactly the catalog record; over the whole
per-identity lifetime, exactly one catalog record appears in the trace
and it is the very first record, before any transition record. -/
theorem C3_catalog_once (message function_name file_name : String) (line : Int)
    (seq : List (Bool × Details)) :
    (Assertion.create message function_name file_name line).2 =
      [Record.catalog (message ++ " in " ++ function_name) file_name line function_name message]
    ∧ (runSite message function_name file_name line seq).countP Record.isCatalog = 1
    ∧ (runSite message function_name file_name line seq).head? =
        some (Record.catalog (message ++ " in " ++ function_name) file_name line
          function_name message) := by
  refine ⟨rfl, ?_, rfl⟩
  rw [runSite]
  rw [List.countP_append, runChecks_countP_catalog]
  rfl

/-- C4: once all three flags are `false`, any further `check_assertion`
call emits nothing and returns the assertion completely unchanged. -/
theorem C4_steady_state_no_op (a : Assertion) (cond : Bool) (d : Details)
    (h₁ : a.state.not_reached = false) (h₂ : a.state.false_not_seen = false)
    (h₃ : a.state.true_not_seen = false) :
    a.check_assertion cond d = (a, []) := by
  simp [Assertion.check_assertion, h₁, h₂, h₃]

/-- Witness for C4 at a concrete exhausted assertion. -/
theorem C4_steady_state_no_op_witness :
    (exhaustedAssertion.state.not_reached = false ∧
      exhaustedAssertion.state.false_not_seen = false ∧
      exhaustedAssertion.state.true_not_seen = false) ∧
    exhaustedAssertion.check_assertion true (Details.ofList []) = (exhaustedAssertion, []) :=
  ⟨⟨rfl, rfl, rfl⟩, C4_steady_state_no_op exhaustedAssertion true (Details.ofList []) rfl rfl rfl⟩

/-- C5 counterexample: supplying `[("b", "2"), ("a", "1")]` serializes with
`"a"` first — ascending key order, NOT the supplied insertion order. -/
theorem C5_cex :
    serializeDetails (Details.ofList [("b", .str "2"), ("a", .str "1")]) =
      "\x7b \"a\": \"1\", \"b\": \"2\" \x7d"
    ∧ serializeDetails (Details.ofList [("b", .str "2"), ("a", .str "1")]) ≠
      "\x7b \"b\": \"2\", \"a\": \"1\" \x7d" :=
  ⟨by decide, by decide⟩

/-- C5 amended: serialization lists the pairs in ascending lexicographic
key order (the `std::map` iteration order), not in the supplied order. -/
theorem C5_amended_sorted_order (l : List (String × Value)) :
    SortedKeys (Details.ofList l)
    ∧ serializeDetails (Details.ofList l) =
        "\x7b " ++ String.intercalate ", " (serializeEntries (Details.ofList l)) ++ " \x7d" :=
  ⟨sortedKeys_ofList l, rfl⟩

/-- C6 counterexample: with duplicate key `"a"` supplied as `"1"` then
`"2"`, the map keeps the FIRST value `"1"`, not the last. -/
theorem C6_cex :
    mapLookup (Details.ofList [("a", .str "1"), ("a", .str "2")]) "a" = some (Value.str "1")
    ∧ serializeDetails (Details.ofList [("a", .str "1"), ("a", .str "2")]) =
        "\x7b \"a\": \"1\" \x7d"
    ∧ Value.str "1" ≠ Value.str "2" := by
  refine ⟨rfl, by decide, ?_⟩
  intro h
  injection h with h'
  exact absurd h' (by decide)

/-- C6 amended: keys are unique in the constructed map, and a duplicated
key maps to the FIRST value supplied for it (first write wins: lookup in
the construction list order). -/
theorem C6_amended_first_wins (l : List (String × Value)) (k : String) :
    ((Details.ofList l).map Prod.fst).Nodup ∧
    mapLookup (Details.ofList l) k = mapLookup l k :=
  ⟨nodup_keys_of_sortedKeys (sortedKeys_ofList l), mapLookup_ofList l k⟩

/-- C7 counterexample: the code delimits the ID, function and message with
backticks, so the emitted lines differ from the double-quoted formats the
claim states. -/
theorem C7_cex :
    renderRecord (Record.catalog "x>0 in f" "file.cpp" 10 "f" "x>0") ≠
      specCatalogLine "x>0 in f" "file.cpp" 10 "f" "x>0"
    ∧ renderRecord (Record.reached "x>0 in f") ≠ specReachedLine "x>0 in f" :=
  ⟨by decide, by decide⟩

/-- C7 amended: the emitted lines follow the documented templates with
backtick-delimited ID, function and message, and the reached record is
immediately followed by its `Details:` line. -/
theorem C7_amended_backtick_formats (id file : String) (line : Int)
    (function_name message text : String) (a : Assertion) (cond : Bool) (d : Details)
    (h : a.state.not_reached = true) :
    renderRecord (Record.catalog id file line function_name message) =
      "There is an assertion with ID `" ++ id ++ "` at " ++ file ++ ":" ++ toString line
        ++ " in `" ++ function_name ++ "` with message: `" ++ message ++ "`"
    ∧ renderRecord (Record.reached id) = "The assertion with ID `" ++ id ++ "` was reached"
    ∧ renderRecord (Record.firstFalse id message) =
        "The assertion with ID `" ++ id ++ "` saw its first false: " ++ message
    ∧ renderRecord (Record.firstTrue id message) =
        "The assertion with ID `" ++ id ++ "` saw its first true: " ++ message
    ∧ renderRecord (Record.details text) = "Details: " ++ text
    ∧ (a.check_assertion cond d).2.take 2 =
        [Record.reached a.id, Record.details (serializeDetails d)] := by
  refine ⟨rfl, rfl, rfl, rfl, rfl, ?_⟩
  rw [check_spec, h]
  rfl

/-- Witness for C7 amended: a freshly constructed site has the
not-reached flag set and its first emission starts with the reached
record plus its details line. -/
theorem C7_amended_backtick_formats_witness :
    scenarioSite.state.not_reached = true ∧
    (scenarioSite.check_assertion true (Details.ofList [])).2.take 2 =
      [Record.reached scenarioSite.id, Record.details (serializeDetails (Details.ofList []))] :=
  ⟨rfl, (C7_amended_backtick_formats "i" "f.cpp" 1 "fn" "msg" "t" scenarioSite true
    (Details.ofList []) rfl).2.2.2.2.2⟩

/-- C8 counterexample: a string containing the control character `\n` is
serialized with that control character passed through RAW — control
characters are not escaped by `std::quoted`. -/
theorem C8_cex :
    serializeValue (Value.str "a\nb") = "\"a\nb\""
    ∧ '\n' ∈ (serializeValue (Value.str "a\nb")).data
    ∧ '\n'.toNat < 32 :=
  ⟨by decide, by decide, by decide⟩

/-- C8 amended: string values and keys are quoted with every quote or
backslash character escaped by a preceding backslash (making the quoting
injective); control characters pass through unescaped. -/
theorem C8_amended_escaping (s t : String) (h : quoted s = quoted t) :
    s = t ∧ (quoted s).data = '"' :: (s.data.flatMap escapeChar ++ ['"']) := by
  refine ⟨quoted_inj h, ?_⟩
  simp [quoted]

/-- Witness for C8 amended at a concrete string containing a quote. -/
theorem C8_amended_escaping_witness :
    "a\"b" = "a\"b" ∧ (quoted "a\"b").data = '"' :: ("a\"b".data.flatMap escapeChar ++ ['"']) :=
  C8_amended_escaping "a\"b" "a\"b" rfl

/-- C10: serialization does not depend on the order in which distinct-keyed
pairs were supplied — any permutation of the construction list yields
byte-identical text, with pairs in ascending lexicographic key order. -/
theorem C10_serialization_order_independent (l₁ l₂ : List (String × Value))
    (h : (l₁.map Prod.fst).Nodup) (hp : l₁.Perm l₂) :
    serializeDetails (Details.ofList l₁) = serializeDetails (Details.ofList l₂)
    ∧ SortedKeys (Details.ofList l₁) :=
  ⟨congrArg serializeDetails (ofList_eq_of_perm h hp), sortedKeys_ofList l₁⟩

/-- Witness for C10 at two concrete two-element supply orders. -/
theorem C10_serialization_order_independent_witness :
    ([("b", Value.str "2"), ("a", Value.str "1")].map Prod.fst).Nodup ∧
    serializeDetails (Details.ofList [("b", Value.str "2"), ("a", Value.str "1")]) =
      serializeDetails (Details.ofList [("a", Value.str "1"), ("b", Value.str "2")]) ∧
    SortedKeys (Details.ofList [("b", Value.str "2"), ("a", Value.str "1")]) := by
  have hnd : ([("b", Value.str "2"), ("a", Value.str "1")].map Prod.fst).Nodup := by decide
  have hp : ([("b", Value.str "2"), ("a", Value.str "1")]).Perm
      [("a", Value.str "1"), ("b", Value.str "2")] :=
    List.Perm.swap ("a", Value.str "1") ("b", Value.str "2") []
  have h := C10_serialization_order_independent _ _ hnd hp
  exact ⟨hnd, h.1, h.2⟩

end AntithesisSDK
